import Mathlib

/-!
Shallow embedding of the `riff`/`riffu` RIFF-container library
(eager reader `src/eager/riff.rs`, lazy reader `src/lazy/riff.rs`,
builder `src/builder/riff.rs`) over byte lists (`List Nat`, each
element a `u8` value).

Modelling conventions:
* A byte buffer, a file's contents, and a Rust `&str` are all `List Nat`.
* `u32` little-endian decoding takes each byte modulo 256 (machine
  semantics); encoding produces the four LE bytes of `n % 2^32`.
* Fallible Rust functions return `Except RiffError`.
* A Rust runtime panic (slice index out of range) is modelled as an
  explicit `panicked` result constructor, never by a total default value.
* The lazy reader's backing file is passed explicitly to every operation
  that re-opens/reads the path in Rust; struct fields that the Rust code
  caches at construction time are plain Lean fields.
* Recursion over builder trees uses an explicit `fuel` bound on nesting
  depth (any fuel larger than the depth computes the Rust value); this
  keeps every definition executable by kernel reduction.
-/

/-- Little-endian `u32` decoding of the first four bytes of a list,
as `u32::from_le_bytes` (each byte reduced mod 256). -/
def le4 : List Nat → Nat
  | b0 :: b1 :: b2 :: b3 :: _ =>
    b0 % 256 + 256 * (b1 % 256) + 65536 * (b2 % 256) + 16777216 * (b3 % 256)
  | _ => 0

/-- Little-endian `u32` encoding, as `u32::to_le_bytes`. -/
def toLE4 (n : Nat) : List Nat :=
  [n % 256, n / 256 % 256, n / 65536 % 256, n / 16777216 % 256]

/-- Decides whether a byte is a UTF-8 continuation byte (`0x80..=0xBF`). -/
def isCont (b : Nat) : Bool := 128 ≤ b && b ≤ 191

/-- RFC 3629 UTF-8 validity of a byte list, as `std::str::from_utf8`
success. -/
def utf8Valid : List Nat → Bool
  | [] => true
  | b :: rest =>
    if b ≤ 127 then utf8Valid rest
    else if 194 ≤ b && b ≤ 223 then
      match rest with
      | c1 :: r => isCont c1 && utf8Valid r
      | _ => false
    else if b = 224 then
      match rest with
      | c1 :: c2 :: r => (160 ≤ c1 && c1 ≤ 191) && isCont c2 && utf8Valid r
      | _ => false
    else if (225 ≤ b && b ≤ 236) || b = 238 || b = 239 then
      match rest with
      | c1 :: c2 :: r => isCont c1 && isCont c2 && utf8Valid r
      | _ => false
    else if b = 237 then
      match rest with
      | c1 :: c2 :: r => (128 ≤ c1 && c1 ≤ 159) && isCont c2 && utf8Valid r
      | _ => false
    else if b = 240 then
      match rest with
      | c1 :: c2 :: c3 :: r =>
        (144 ≤ c1 && c1 ≤ 191) && isCont c2 && isCont c3 && utf8Valid r
      | _ => false
    else if 241 ≤ b && b ≤ 243 then
      match rest with
      | c1 :: c2 :: c3 :: r => isCont c1 && isCont c2 && isCont c3 && utf8Valid r
      | _ => false
    else if b = 244 then
      match rest with
      | c1 :: c2 :: c3 :: r =>
        (128 ≤ c1 && c1 ≤ 143) && isCont c2 && isCont c3 && utf8Valid r
      | _ => false
    else false

/-- The bytes of the reserved id `RIFF` (`constants::RIFF_ID`). -/
def RIFF_ID : List Nat := [82, 73, 70, 70]

/-- The bytes of the reserved id `LIST` (`constants::LIST_ID`). -/
def LIST_ID : List Nat := [76, 73, 83, 84]

/-- The bytes of the reserved id `seqt` (`constants::SEQT_ID`). -/
def SEQT_ID : List Nat := [115, 101, 113, 116]

/-- Error kinds of `error::RiffError`, by kind (payload data kept where
the eager reader stores the offending bytes). -/
inductive RiffError where
  | io
  | payloadLenMismatch (data : List Nat)
  | chunkTooSmall (data : List Nat)
  | chunkTooSmallForChunkType (data : List Nat)
  | utf8Error
  | invalidRiffHeader
  | mismatchChunkAdded
  deriving DecidableEq

/-- `FourCC::as_str` : the `&str` view of four id bytes, failing with
`Utf8Error` on invalid UTF-8 (a `&str` is modelled by its bytes). -/
def as_str (f : List Nat) : Except RiffError (List Nat) :=
  if utf8Valid f then .ok f else .error .utf8Error

/-- The readers' classification test `matches!(id.as_str(), Ok(RIFF_ID) | Ok(LIST_ID))`
used by `get_raw_child`, `iter` and `offset_into_data`. -/
def isTypedId (id : List Nat) : Bool :=
  match as_str id with
  | .ok s => s = RIFF_ID || s = LIST_ID
  | .error _ => false

/-- Eager root handle `eager::riff::RiffRam` (owns the file bytes). -/
structure RiffRam where
  data : List Nat
  deriving DecidableEq

/-- Eager chunk handle `eager::riff::ChunkRam` (a byte sub-slice). -/
structure ChunkRam where
  data : List Nat
  deriving DecidableEq

/-- `ChunkRam::id` : the first four bytes of the slice. -/
def ChunkRam.id (c : ChunkRam) : List Nat := c.data.take 4

/-- `ChunkRam::payload_len` : LE `u32` at bytes 4..8 of the slice. -/
def ChunkRam.payload_len (c : ChunkRam) : Nat := le4 (c.data.drop 4)

/-- `ChunkRam::from_raw_u8` : admits a slice iff it holds at least 8
bytes and its length is exactly `payload_len + 8`. -/
def ChunkRam.from_raw_u8 (data : List Nat) : Except RiffError ChunkRam :=
  if 8 ≤ data.length then
    let chunk : ChunkRam := ⟨data⟩
    if data.length = chunk.payload_len + 8 then .ok chunk
    else .error (.payloadLenMismatch data)
  else .error (.chunkTooSmall data)

/-- `ChunkRam::chunk_type` : the four bytes at offset 8, failing when
the slice holds fewer than 12 bytes; no classification check. -/
def ChunkRam.chunk_type (c : ChunkRam) : Except RiffError (List Nat) :=
  if 12 ≤ c.data.length then .ok ((c.data.drop 8).take 4)
  else .error (.chunkTooSmallForChunkType c.data)

/-- Result of `ChunkRam::get_raw_child`: the sub-slice, a returned
error, or a Rust panic (slice end index past the slice length). -/
inductive RawRes where
  | ok (bytes : List Nat)
  | err (e : RiffError)
  | panicked
  deriving DecidableEq

/-- `ChunkRam::get_raw_child` : offset 12 for `RIFF`/`LIST` ids else 8;
the code checks only `data.len() >= offset` before evaluating
`&data[offset..offset + payload_len]`, so an end index past the slice
length is a Rust panic, not an error. -/
def ChunkRam.get_raw_child (c : ChunkRam) : RawRes :=
  let offset : Nat := if isTypedId c.id then 12 else 8
  if offset ≤ c.data.length then
    if offset + c.payload_len ≤ c.data.length then
      .ok ((c.data.drop offset).take c.payload_len)
    else .panicked
  else .err (.payloadLenMismatch c.data)

/-- Child-iterator state `eager::riff::ChunkRamIter`. -/
structure ChunkRamIter where
  cursor : Nat
  data : List Nat
  error_occurred : Bool
  deriving DecidableEq

/-- `ChunkRam::iter` : the children region is the slice after the
header (offset 12 for typed ids, else 8). In Rust `&data[12..]` would
panic for a typed chunk shorter than 12 bytes; `List.drop` is total, so
that sub-12-byte corner is not modelled (no claim depends on it). -/
def ChunkRam.iter (c : ChunkRam) : ChunkRamIter :=
  if isTypedId c.id then ⟨0, c.data.drop 12, false⟩
  else ⟨0, c.data.drop 8, false⟩

/-- `RiffRam::from_file` with the file's bytes as input (`std::fs::read`
is the assumed primitive): at least 8 bytes, first id must read `RIFF`. -/
def RiffRam.from_file (data : List Nat) : Except RiffError RiffRam :=
  if 8 ≤ data.length then
    match as_str (data.take 4) with
    | .error e => .error e
    | .ok s => if s = RIFF_ID then .ok ⟨data⟩ else .error .invalidRiffHeader
  else .error (.chunkTooSmall data)

/-- `RiffRam::iter` : converts the root to a chunk, then iterates. -/
def RiffRam.iter (r : RiffRam) : Except RiffError ChunkRamIter :=
  match ChunkRam.from_raw_u8 r.data with
  | .ok c => .ok c.iter
  | .error e => .error e

instance {ε α : Type} [DecidableEq ε] [DecidableEq α] : DecidableEq (Except ε α)
  | .ok a, .ok b =>
    if h : a = b then isTrue (by rw [h])
    else isFalse (by intro hh; cases hh; exact h rfl)
  | .error a, .error b =>
    if h : a = b then isTrue (by rw [h])
    else isFalse (by intro hh; cases hh; exact h rfl)
  | .ok _, .error _ => isFalse (by intro h; cases h)
  | .error _, .ok _ => isFalse (by intro h; cases h)

/-- One yielded item of the eager child iterator: `None`, a chunk item
(`Ok`/`Err`), or a Rust panic (`&data[cursor..]` with `cursor > len`). -/
inductive RamOut where
  | stop
  | chunk (r : Except RiffError ChunkRam)
  | panicked
  deriving DecidableEq

/-- `ChunkRamIter::next` : one step of the eager child iterator,
returning the yielded item and the successor state. -/
def ramNext (it : ChunkRamIter) : RamOut × ChunkRamIter :=
  if it.error_occurred || it.cursor = it.data.length then (.stop, it)
  else if it.data.length < it.cursor then (.panicked, it)
  else
    let rest := it.data.drop it.cursor
    if 8 ≤ rest.length then
      let pl := le4 (rest.drop 4)
      if it.cursor + 8 + pl ≤ it.data.length then
        match ChunkRam.from_raw_u8 (rest.take (8 + pl)) with
        | .ok chunk =>
          (.chunk (.ok chunk),
           { it with cursor := it.cursor + 8 + chunk.payload_len + chunk.payload_len % 2 })
        | .error e => (.chunk (.error e), { it with error_occurred := true })
      else (.chunk (.error (.chunkTooSmall rest)), { it with error_occurred := true })
    else (.chunk (.error (.chunkTooSmall rest)), { it with error_occurred := true })

/-- The items yielded by `n` successive `ChunkRamIter::next` calls. -/
def ramSteps : Nat → ChunkRamIter → List RamOut
  | 0, _ => []
  | n + 1, it => (ramNext it).1 :: ramSteps n (ramNext it).2

/-- The eager iterator state after `n` `next` calls. -/
def ramStepN : Nat → ChunkRamIter → ChunkRamIter
  | 0, it => it
  | n + 1, it => ramStepN n (ramNext it).2

/-- Lazy chunk handle `lazy::riff::ChunkDisk`: the header fields are
read once in `from_path` and stored (cached) in the struct. -/
structure ChunkDisk where
  id : List Nat
  chunk_type : Option (List Nat)
  pos : Nat
  payload_len : Nat
  deriving DecidableEq

/-- `ChunkDisk::read_4_bytes` : seek + `read_exact` of 4 bytes against
the backing file, `Io` error when fewer than 4 bytes are available. -/
def read_4_bytes (file : List Nat) (pos : Nat) : Except RiffError (List Nat) :=
  if pos + 4 ≤ file.length then .ok ((file.drop pos).take 4) else .error .io

/-- `ChunkDisk::from_path` : reads id, payload length, and (fallibly)
the four type bytes at construction time; `file` is the current
contents of the backing path. -/
def ChunkDisk.from_path (file : List Nat) (pos : Nat) : Except RiffError ChunkDisk :=
  match read_4_bytes file pos with
  | .error e => .error e
  | .ok id_buff =>
    match read_4_bytes file (pos + 4) with
    | .error e => .error e
    | .ok payload_len_buff =>
      let chunk_type : Option (List Nat) :=
        match read_4_bytes file (pos + 8) with
        | .ok result => some result
        | .error _ => none
      .ok ⟨id_buff, chunk_type, pos, le4 payload_len_buff⟩

/-- `ChunkDisk::offset_into_data` : 12 for `RIFF`/`LIST` ids, else 8. -/
def ChunkDisk.offset_into_data (c : ChunkDisk) : Nat :=
  if isTypedId c.id then 12 else 8

/-- `ChunkDisk::get_raw_child` : re-opens the path and reads
`payload_len` bytes at `pos + offset` from the current file contents. -/
def ChunkDisk.get_raw_child (file : List Nat) (c : ChunkDisk) : Except RiffError (List Nat) :=
  if c.pos + c.offset_into_data + c.payload_len ≤ file.length then
    .ok ((file.drop (c.pos + c.offset_into_data)).take c.payload_len)
  else .error .io

/-- Child-iterator state `lazy::riff::ChunkDiskIter` (the path is
carried implicitly; the current file contents are passed to `next`). -/
structure ChunkDiskIter where
  cursor : Nat
  cursor_end : Nat
  error_occurred : Bool
  deriving DecidableEq

/-- `ChunkDisk::iter` : cursor bounds of the child iterator. The typed
bound `pos + 12 + payload_len - 4` uses truncated subtraction exactly
as `u32` arithmetic would for `payload_len ≥ 4`. -/
def ChunkDisk.iter (c : ChunkDisk) : ChunkDiskIter :=
  if isTypedId c.id then ⟨c.pos + 12, c.pos + 12 + c.payload_len - 4, false⟩
  else ⟨c.pos + 8, c.pos + 8 + c.payload_len, false⟩

/-- One yielded item of the lazy child iterator. -/
inductive DiskOut where
  | stop
  | chunk (r : Except RiffError ChunkDisk)
  deriving DecidableEq

/-- `ChunkDiskIter::next` : one step of the lazy child iterator against
the current file contents. -/
def diskNext (file : List Nat) (it : ChunkDiskIter) : DiskOut × ChunkDiskIter :=
  if it.error_occurred || it.cursor_end ≤ it.cursor then (.stop, it)
  else
    match ChunkDisk.from_path file it.cursor with
    | .ok chunk =>
      (.chunk (.ok chunk),
       { it with cursor := it.cursor + 8 + chunk.payload_len + chunk.payload_len % 2 })
    | .error e => (.chunk (.error e), { it with error_occurred := true })

/-- The items yielded by `n` successive `ChunkDiskIter::next` calls. -/
def diskSteps (file : List Nat) : Nat → ChunkDiskIter → List DiskOut
  | 0, _ => []
  | n + 1, it => (diskNext file it).1 :: diskSteps file n (diskNext file it).2

/-- The lazy iterator state after `n` `next` calls. -/
def diskStepN (file : List Nat) : Nat → ChunkDiskIter → ChunkDiskIter
  | 0, it => it
  | n + 1, it => diskStepN file n (diskNext file it).2

/-- `RiffDisk::from_file` : reads only the first four bytes of the
path and requires them to read `RIFF`; the handle itself stores just
the path, modelled as `Unit`. -/
def RiffDisk.from_file (file : List Nat) : Except RiffError Unit :=
  if 4 ≤ file.length then
    let buffer := file.take 4
    if utf8Valid buffer then
      if buffer = RIFF_ID then .ok () else .error .invalidRiffHeader
    else .error .utf8Error
  else .error .io

mutual
/-- Builder node `builder::riff::ChunkBuilder`. -/
inductive ChunkBuilder where
  | mk (chunk_id : List Nat) (payload_len : Nat)
       (chunk_type : Option (List Nat)) (data : ChunkData)

/-- Builder payload `builder::riff::ChunkData`. -/
inductive ChunkData where
  | rawData (bytes : List Nat)
  | chunkList (chunks : List ChunkBuilder)
end

/-- Field accessor for `ChunkBuilder::chunk_id`. -/
def ChunkBuilder.chunk_id : ChunkBuilder → List Nat
  | .mk v _ _ _ => v

/-- Field accessor for `ChunkBuilder::payload_len`. -/
def ChunkBuilder.payload_len : ChunkBuilder → Nat
  | .mk _ v _ _ => v

/-- Field accessor for `ChunkBuilder::chunk_type`. -/
def ChunkBuilder.chunk_type : ChunkBuilder → Option (List Nat)
  | .mk _ _ v _ => v

/-- Field accessor for `ChunkBuilder::data`. -/
def ChunkBuilder.data : ChunkBuilder → ChunkData
  | .mk _ _ _ v => v

/-- `ChunkBuilder::calculate_payload` : each list child contributes its
stored `payload_len + 8`, or `payload_len + 4 + 8` when the child has a
chunk type; raw data contributes its byte length truncated to `u32`
(the Rust `data.len() as u32` cast); plus `offset`. -/
def calculate_payload (data : ChunkData) (offset : Nat) : Nat :=
  (match data with
   | .chunkList cs =>
     (cs.map (fun x =>
       if x.chunk_type.isSome then x.payload_len + 4 + 8 else x.payload_len + 8)).sum
   | .rawData d => d.length % 4294967296) + offset

/-- `ChunkBuilder::fit_data` : appends one zero byte to odd-length raw
data; chunk lists are unchanged. -/
def fit_data : ChunkData → ChunkData
  | .rawData v => if v.length % 2 = 1 then .rawData (v ++ [0]) else .rawData v
  | .chunkList cs => .chunkList cs

/-- `ChunkBuilder::new_notype` : payload computed before padding. -/
def ChunkBuilder.new_notype (id : List Nat) (data : ChunkData) : ChunkBuilder :=
  .mk id (calculate_payload data 0) none (fit_data data)

/-- `ChunkBuilder::new_type` : payload computed with offset 4 for the
type field, before padding. -/
def ChunkBuilder.new_type (id chunk_type : List Nat) (data : ChunkData) : ChunkBuilder :=
  .mk id (calculate_payload data 4) (some chunk_type) (fit_data data)

/-- `ChunkBuilder::add_chunk` : adds 8 (and 4 more when the new child
is typed) to the stored payload, then re-adds `payload_len + 8` for
every existing child, then pushes the new child. -/
def ChunkBuilder.add_chunk (self chunk : ChunkBuilder) : Except RiffError ChunkBuilder :=
  let pl1 := self.payload_len + 8
  let pl2 := if chunk.chunk_type.isSome then pl1 + 4 else pl1
  match self.data with
  | .rawData _ => .error .mismatchChunkAdded
  | .chunkList vec =>
    .ok (.mk self.chunk_id
          (pl2 + (vec.map (fun x => x.payload_len + 8)).sum)
          self.chunk_type
          (.chunkList (vec ++ [chunk])))

/-- `ChunkBuilder::to_bytes` : id, LE payload length, optional type,
then raw bytes or the children's serializations in order. `fuel`
bounds nesting depth; any fuel above the tree's depth gives the Rust
value. -/
def chunkToBytesF : Nat → ChunkBuilder → List Nat
  | 0, _ => []
  | fuel + 1, c =>
    c.chunk_id ++ toLE4 c.payload_len ++
    (match c.chunk_type with
     | some t => t
     | none => []) ++
    (match c.data with
     | .rawData raw => raw
     | .chunkList chunks => (chunks.map (chunkToBytesF fuel)).flatten)

/-- Builder root `builder::riff::RiffBuilder`. -/
structure RiffBuilder where
  payload_len : Nat
  chunk_type : List Nat
  data : List ChunkBuilder

/-- `RiffBuilder::new` : starts with `payload_len = 4` (type field). -/
def RiffBuilder.new (chunk_type : List Nat) : RiffBuilder :=
  ⟨4, chunk_type, []⟩

/-- `RiffBuilder::add_chunk` : adds 8 (and 4 more when the child is
typed), then the child's raw byte length (already padded) or
`payload_len + 8` summed over the child's own children. -/
def RiffBuilder.add_chunk (self : RiffBuilder) (chunk : ChunkBuilder) : RiffBuilder :=
  let pl1 := self.payload_len + 8
  let pl2 := if chunk.chunk_type.isSome then pl1 + 4 else pl1
  let pl3 := pl2 +
    (match chunk.data with
     | .rawData raw => raw.length
     | .chunkList vec => (vec.map (fun x => x.payload_len + 8)).sum)
  ⟨pl3, self.chunk_type, self.data ++ [chunk]⟩

/-- `RiffBuilder::to_bytes` : `RIFF`, LE payload length, type, then the
children's serializations (same `fuel` convention as `chunkToBytesF`). -/
def RiffBuilder.to_bytes (fuel : Nat) (r : RiffBuilder) : List Nat :=
  RIFF_ID ++ toLE4 r.payload_len ++ r.chunk_type ++ (r.data.map (chunkToBytesF fuel)).flatten

/-- Wire encoding of one chunk from `(id, content)`: header, content,
and the pad byte after odd content — the format both the spec (§6) and
the readers' advance rule agree on. -/
def encChunk (p : List Nat × List Nat) : List Nat :=
  p.1 ++ toLE4 p.2.length ++ p.2 ++ (if p.2.length % 2 = 1 then [0] else [])

/-- The header-plus-content slice of one encoded chunk (no pad byte):
exactly the slice the eager iterator hands to `from_raw_u8`. -/
def encHdr (p : List Nat × List Nat) : List Nat :=
  p.1 ++ toLE4 p.2.length ++ p.2

/-- Concatenated wire encoding of a sequence of chunks. -/
def encSeq : List (List Nat × List Nat) → List Nat
  | [] => []
  | p :: rest => encChunk p ++ encSeq rest

/-- Well-formedness of an item list: four-byte ids and `u32`-sized
contents. -/
def wfItems (items : List (List Nat × List Nat)) : Prop :=
  ∀ p ∈ items, p.1.length = 4 ∧ p.2.length < 4294967296

/-- Expected lazy-iterator trace over an encoded chunk sequence
starting at `pos`: each yielded `ChunkDisk` caches the id, the
(opportunistically read) type bytes at `pos + 8`, the position, and the
content length. -/
def diskTrace (file : List Nat) : Nat → List (List Nat × List Nat) → List DiskOut
  | _, [] => []
  | pos, p :: rest =>
    .chunk (.ok ⟨p.1,
      (match read_4_bytes file (pos + 8) with
       | .ok result => some result
       | .error _ => none), pos, p.2.length⟩)
      :: diskTrace file (pos + 8 + p.2.length + p.2.length % 2) rest

/-- Modelled from the spec (§4.5): the container payload-length formula
the spec states — `(4 if typed) + Σ over children of
(8 + child.payload_len + child.payload_len mod 2)` — for comparison
with the code's `calculate_payload`. -/
def spec_container_payload_len (typed : Bool) (children : List ChunkBuilder) : Nat :=
  (if typed then 4 else 0) +
    (children.map (fun c => 8 + c.payload_len + c.payload_len % 2)).sum

/-- Is an eager iterator item an `Err`? -/
def isRamErr : RamOut → Bool
  | .chunk (.error _) => true
  | _ => false

/-- Is a lazy iterator item an `Err`? -/
def isDiskErr : DiskOut → Bool
  | .chunk (.error _) => true
  | _ => false

/-- The leaf `test:[0xFF]` used by the builder counterexamples. -/
def exLeaf : ChunkBuilder :=
  ChunkBuilder.new_notype [116, 101, 115, 116] (.rawData [255])

/-- The untyped container `seqt([test:[0xFF]])`. -/
def exCont : ChunkBuilder := ChunkBuilder.new_notype SEQT_ID (.chunkList [exLeaf])

/-- The root tree `RIFF(smpl)[ seqt[ test:[0xFF] ] ]`. -/
def exRiff : RiffBuilder :=
  (RiffBuilder.new [115, 109, 112, 108]).add_chunk exCont

/-- The serialization of `exRiff` (depth 2, fuel 3 suffices). -/
def exBytes : List Nat := RiffBuilder.to_bytes 3 exRiff

/-- A typed child `LIST(tst1)[]` (payload 4) for the double-count
counterexample. -/
def exTypedChild : ChunkBuilder :=
  ChunkBuilder.new_type LIST_ID [116, 115, 116, 49] (.chunkList [])

/-- The untyped container `seqt([LIST(tst1)[]])`. -/
def exContTyped : ChunkBuilder :=
  ChunkBuilder.new_notype SEQT_ID (.chunkList [exTypedChild])

/-- A minimal typed container chunk on the wire: `RIFF`, payload 4,
form type `smpl` — exactly 12 bytes. -/
def exTypedBytes : List Nat := RIFF_ID ++ toLE4 4 ++ [115, 109, 112, 108]

/-- A 12-byte leaf chunk `test`, payload 4, content `abcd`. -/
def exLeafBytes12 : List Nat := [116, 101, 115, 116] ++ toLE4 4 ++ [97, 98, 99, 100]

/-- Concrete child items for the C3 witness: an odd-content leaf
`test:[0xFF]` followed by an even-content leaf `ab12:[1,2]`. -/
def c3Items : List (List Nat × List Nat) :=
  [([116, 101, 115, 116], [255]), ([97, 98, 49, 50], [1, 2])]

/-- Concrete form type `tst1` for the C3 witness. -/
def c3Ty : List Nat := [116, 115, 116, 49]

/-- Two junk bytes preceding the container in the C3 witness file. -/
def c3Pre : List Nat := [7, 7]

/-- One junk byte following the container in the C3 witness file. -/
def c3Suf : List Nat := [9]

/-- The C3 witness file: the `LIST(tst1)` container over `c3Items`
embedded between `c3Pre` and `c3Suf`. -/
def c3File : List Nat :=
  c3Pre ++ (LIST_ID ++ toLE4 (4 + (encSeq c3Items).length) ++ c3Ty ++ encSeq c3Items) ++ c3Suf

/-- Claim C1 (code_bug evidence): the builder tree
`RIFF(smpl)[ seqt[ test:[0xFF] ] ]` serializes to 30 bytes whose root
header declares `payload_len = 21` (it should be 22: the container's
stored payload omits the child's pad byte), so the eager loader accepts
the file but the root chunk conversion — the first step of re-walking —
fails with `PayloadLenMismatch` instead of reproducing the tree. -/
theorem c1_roundtrip_fails_on_nested_odd_leaf :
    exRiff.payload_len = 21 ∧
    exBytes.length = 30 ∧
    RiffRam.from_file exBytes = .ok ⟨exBytes⟩ ∧
    ChunkRam.from_raw_u8 exBytes = .error (.payloadLenMismatch exBytes) ∧
    RiffRam.iter ⟨exBytes⟩ = .error (.payloadLenMismatch exBytes) := by
  refine ⟨by decide, by decide, by decide, by decide, by decide⟩

/-- Claim C2 (code_bug evidence): the container `seqt([test:[0xFF]])`
stores `payload_len = 9` while the spec formula gives 10 (the pad byte
of the odd child is not counted) and the serialized contents really
occupy 10 bytes; a typed child is double-counted (`16` stored vs `12`
by the formula); and `ChunkBuilder::add_chunk` on an empty container
adds only the child's header, storing 8 instead of 10. -/
theorem c2_builder_payload_len_violates_spec_formula :
    exCont.payload_len = 9 ∧
    spec_container_payload_len false [exLeaf] = 10 ∧
    exCont.payload_len ≠ spec_container_payload_len false [exLeaf] ∧
    (chunkToBytesF 2 exCont).length = 18 ∧
    exContTyped.payload_len = 16 ∧
    spec_container_payload_len false [exTypedChild] = 12 ∧
    ((ChunkBuilder.new_notype SEQT_ID (.chunkList [])).add_chunk exLeaf |>.map
        ChunkBuilder.payload_len) = .ok 8 ∧
    spec_container_payload_len false [] + 8 + exLeaf.payload_len + exLeaf.payload_len % 2 = 10 := by
  refine ⟨by decide, by decide, by decide, by decide, by decide, by decide, by decide, by decide⟩

/-- Claim C4 (code_bug evidence): on the 12-byte typed container
`RIFF len=4 type=smpl` — which `from_raw_u8` accepts — the eager
`get_raw_child` picks offset 12, passes the code's only guard
`data.len() >= offset` (12 ≥ 12), and then evaluates
`&data[12..12+4]` on a 12-byte slice: a Rust panic, not a
`PayloadLenMismatch` error. The lazy reader on the same bytes returns
an `Io` error (it tries to read 4 content bytes past end-of-file). -/
theorem c4_get_raw_child_panics_on_typed_container :
    ChunkRam.from_raw_u8 exTypedBytes = .ok ⟨exTypedBytes⟩ ∧
    ChunkRam.get_raw_child ⟨exTypedBytes⟩ = .panicked ∧
    ChunkDisk.from_path exTypedBytes 0 = .ok ⟨RIFF_ID, some [115, 109, 112, 108], 0, 4⟩ ∧
    ChunkDisk.get_raw_child exTypedBytes ⟨RIFF_ID, some [115, 109, 112, 108], 0, 4⟩ =
      .error .io := by
  refine ⟨by decide, by decide, by decide, by decide⟩

/-- Helper: the reserved id `RIFF` is valid UTF-8. -/
theorem utf8Valid_RIFF : utf8Valid RIFF_ID = true := by decide

/-- Claim C5 (amended): the eager loader rejects fewer than 8 bytes
with `ChunkTooSmall` and a non-`RIFF` valid-UTF-8 head with
`InvalidRiffHeader`; the lazy loader checks only the first four bytes —
fewer than 4 bytes give an `Io` error, and any file whose first four
bytes are `RIFF` (even a 7-byte truncation) is accepted at load. -/
theorem c5_loader_error_behavior (data file : List Nat) :
    (data.length < 8 → RiffRam.from_file data = .error (.chunkTooSmall data)) ∧
    (8 ≤ data.length → utf8Valid (data.take 4) = true → data.take 4 ≠ RIFF_ID →
      RiffRam.from_file data = .error .invalidRiffHeader) ∧
    (8 ≤ data.length → data.take 4 = RIFF_ID → RiffRam.from_file data = .ok ⟨data⟩) ∧
    (file.length < 4 → RiffDisk.from_file file = .error .io) ∧
    (4 ≤ file.length → file.take 4 = RIFF_ID → RiffDisk.from_file file = .ok ()) := by
  refine ⟨fun h => ?_, fun h h2 h3 => ?_, fun h h2 => ?_, fun h => ?_, fun h h2 => ?_⟩
  · simp [RiffRam.from_file, Nat.not_le_of_lt h]
  · simp [RiffRam.from_file, h, as_str, h2, h3]
  · simp [RiffRam.from_file, h, as_str, h2, utf8Valid_RIFF]
  · simp [RiffDisk.from_file, Nat.not_le_of_lt h]
  · simp [RiffDisk.from_file, h, h2, utf8Valid_RIFF]

/-- Witness for `c5_loader_error_behavior` at concrete inputs: a
3-byte buffer (eager too-small), a `LIST`-headed 8-byte buffer (eager
invalid header), a `RIFF`-headed 8-byte buffer (eager success), a
1-byte file (lazy `Io`), and the 7-byte truncated file (lazy accepts). -/
theorem c5_loader_error_behavior_w :
    RiffRam.from_file [1, 2, 3] = .error (.chunkTooSmall [1, 2, 3]) ∧
    RiffRam.from_file [76, 73, 83, 84, 0, 0, 0, 0] = .error .invalidRiffHeader ∧
    RiffRam.from_file [82, 73, 70, 70, 0, 0, 0, 0] = .ok ⟨[82, 73, 70, 70, 0, 0, 0, 0]⟩ ∧
    RiffDisk.from_file [9] = .error .io ∧
    RiffDisk.from_file [82, 73, 70, 70, 14, 0, 0] = .ok () :=
  ⟨(c5_loader_error_behavior [1, 2, 3] [9]).1 (by decide),
   (c5_loader_error_behavior [76, 73, 83, 84, 0, 0, 0, 0] [9]).2.1 (by decide) (by decide)
     (by decide),
   (c5_loader_error_behavior [82, 73, 70, 70, 0, 0, 0, 0] [9]).2.2.1 (by decide) (by decide),
   (c5_loader_error_behavior [1, 2, 3] [9]).2.2.2.1 (by decide),
   (c5_loader_error_behavior [1, 2, 3] [82, 73, 70, 70, 14, 0, 0]).2.2.2.2 (by decide)
     (by decide)⟩

/-- Helper: a successful `ChunkDisk::from_path` yields exactly the
struct whose fields are the construction-time reads. -/
theorem from_path_ok_fields (s : List Nat) (pos : Nat) (c : ChunkDisk)
    (h : ChunkDisk.from_path s pos = .ok c) :
    c.pos = pos ∧
    c.id = (s.drop pos).take 4 ∧
    c.payload_len = le4 ((s.drop (pos + 4)).take 4) ∧
    c.chunk_type = (if pos + 12 ≤ s.length then some ((s.drop (pos + 8)).take 4) else none) := by
  unfold ChunkDisk.from_path read_4_bytes at h
  by_cases h1 : pos + 4 ≤ s.length
  · by_cases h2 : pos + 4 + 4 ≤ s.length
    · by_cases h3 : pos + 8 + 4 ≤ s.length
      · simp only [h1, h2, h3, if_pos, Except.ok.injEq] at h
        subst h
        refine ⟨rfl, rfl, rfl, ?_⟩
        have h12 : pos + 12 ≤ s.length := by omega
        simp [h12]
      · simp only [h1, h2, h3, if_pos, if_neg, Except.ok.injEq] at h
        subst h
        refine ⟨rfl, rfl, rfl, ?_⟩
        have h12 : ¬ pos + 12 ≤ s.length := by omega
        simp [h12]
    · simp [h1, h2] at h
  · simp [h1] at h

/-- Claim C6 (amended): `ChunkDisk::from_path` reads and caches `id`,
`payload_len` and `chunk_type` from the construction-time store; the
accessors return those cached values (they take no store), and only
`get_raw_child` reads the *current* store contents on every call. -/
theorem c6_lazy_caching_behavior (s : List Nat) (pos : Nat) (c : ChunkDisk)
    (h : ChunkDisk.from_path s pos = .ok c) :
    (c.pos = pos ∧
     c.id = (s.drop pos).take 4 ∧
     c.payload_len = le4 ((s.drop (pos + 4)).take 4) ∧
     c.chunk_type = (if pos + 12 ≤ s.length then some ((s.drop (pos + 8)).take 4) else none)) ∧
    (∀ s2, ChunkDisk.get_raw_child s2 c =
      if c.pos + c.offset_into_data + c.payload_len ≤ s2.length then
        .ok ((s2.drop (c.pos + c.offset_into_data)).take c.payload_len)
      else .error .io) :=
  ⟨from_path_ok_fields s pos c h, fun _ => rfl⟩

/-- Witness for `c6_lazy_caching_behavior` on the store
`RIFF len=4 [1,2,3,4]` at position 0, with the raw-content read
evaluated against a *different* current store of 16 bytes. -/
theorem c6_lazy_caching_behavior_w :
    ((ChunkDisk.mk RIFF_ID (some [1, 2, 3, 4]) 0 4).pos = 0 ∧
     (ChunkDisk.mk RIFF_ID (some [1, 2, 3, 4]) 0 4).id =
       (((RIFF_ID ++ toLE4 4 ++ [1, 2, 3, 4]) : List Nat).drop 0).take 4 ∧
     (ChunkDisk.mk RIFF_ID (some [1, 2, 3, 4]) 0 4).payload_len =
       le4 ((((RIFF_ID ++ toLE4 4 ++ [1, 2, 3, 4]) : List Nat).drop (0 + 4)).take 4) ∧
     (ChunkDisk.mk RIFF_ID (some [1, 2, 3, 4]) 0 4).chunk_type =
       (if 0 + 12 ≤ ((RIFF_ID ++ toLE4 4 ++ [1, 2, 3, 4]) : List Nat).length then
          some ((((RIFF_ID ++ toLE4 4 ++ [1, 2, 3, 4]) : List Nat).drop (0 + 8)).take 4)
        else none)) ∧
    ChunkDisk.get_raw_child (LIST_ID ++ toLE4 4 ++ [1, 2, 3, 4] ++ [5, 6, 7, 8])
        (ChunkDisk.mk RIFF_ID (some [1, 2, 3, 4]) 0 4) =
      if (ChunkDisk.mk RIFF_ID (some [1, 2, 3, 4]) 0 4).pos +
          (ChunkDisk.mk RIFF_ID (some [1, 2, 3, 4]) 0 4).offset_into_data +
          (ChunkDisk.mk RIFF_ID (some [1, 2, 3, 4]) 0 4).payload_len ≤
          ((LIST_ID ++ toLE4 4 ++ [1, 2, 3, 4] ++ [5, 6, 7, 8]) : List Nat).length then
        .ok (((LIST_ID ++ toLE4 4 ++ [1, 2, 3, 4] ++ [5, 6, 7, 8]) : List Nat).drop
              ((ChunkDisk.mk RIFF_ID (some [1, 2, 3, 4]) 0 4).pos +
                (ChunkDisk.mk RIFF_ID (some [1, 2, 3, 4]) 0 4).offset_into_data)
            |>.take (ChunkDisk.mk RIFF_ID (some [1, 2, 3, 4]) 0 4).payload_len)
      else .error .io :=
  ⟨(c6_lazy_caching_behavior (RIFF_ID ++ toLE4 4 ++ [1, 2, 3, 4]) 0
      (ChunkDisk.mk RIFF_ID (some [1, 2, 3, 4]) 0 4) (by decide)).1,
   (c6_lazy_caching_behavior (RIFF_ID ++ toLE4 4 ++ [1, 2, 3, 4]) 0
      (ChunkDisk.mk RIFF_ID (some [1, 2, 3, 4]) 0 4) (by decide)).2
     (LIST_ID ++ toLE4 4 ++ [1, 2, 3, 4] ++ [5, 6, 7, 8])⟩

/-- Claim C8 (amended): neither reader's `chunk_type` checks
classification. The eager one returns the four bytes at offset 8 iff
the slice holds at least 12 bytes (equivalently `payload_len ≥ 4`
given the exact-length invariant) and fails with
`ChunkTooSmallForChunkType` otherwise; the lazy one returns the option
cached at construction: `some` of the bytes at `pos + 8` when they were
readable, else `none`. -/
theorem c8_chunk_type_no_classification_check (data s : List Nat) (pos : Nat)
    (c : ChunkRam) (d : ChunkDisk) :
    (ChunkRam.from_raw_u8 data = .ok c →
      c.chunk_type =
        (if 12 ≤ data.length then .ok ((data.drop 8).take 4)
         else .error (.chunkTooSmallForChunkType data)) ∧
      (12 ≤ data.length ↔ 4 ≤ c.payload_len)) ∧
    (ChunkDisk.from_path s pos = .ok d →
      d.chunk_type =
        (if pos + 12 ≤ s.length then some ((s.drop (pos + 8)).take 4) else none)) := by
  constructor
  · intro h
    unfold ChunkRam.from_raw_u8 at h
    by_cases h1 : 8 ≤ data.length
    · simp only [h1, if_pos] at h
      by_cases h2 : data.length = ChunkRam.payload_len ⟨data⟩ + 8
      · simp only [h2, if_pos, Except.ok.injEq] at h
        subst h
        refine ⟨rfl, ?_⟩
        omega
      · simp [h2] at h
    · simp [h1] at h
  · intro h
    exact (from_path_ok_fields s pos d h).2.2.2

/-- Witness for `c8_chunk_type_no_classification_check` on the
12-byte leaf `test len=4 abcd` (eager) and the same bytes as a lazy
store at position 0. -/
theorem c8_chunk_type_no_classification_check_w :
    ((ChunkRam.mk exLeafBytes12).chunk_type =
       (if 12 ≤ exLeafBytes12.length then .ok ((exLeafBytes12.drop 8).take 4)
        else .error (.chunkTooSmallForChunkType exLeafBytes12)) ∧
     (12 ≤ exLeafBytes12.length ↔ 4 ≤ (ChunkRam.mk exLeafBytes12).payload_len)) ∧
    (ChunkDisk.mk [116, 101, 115, 116] (some [97, 98, 99, 100]) 0 4).chunk_type =
      (if 0 + 12 ≤ exLeafBytes12.length then some ((exLeafBytes12.drop (0 + 8)).take 4)
       else none) :=
  ⟨(c8_chunk_type_no_classification_check exLeafBytes12 exLeafBytes12 0 ⟨exLeafBytes12⟩
      (ChunkDisk.mk [116, 101, 115, 116] (some [97, 98, 99, 100]) 0 4)).1 (by decide),
   (c8_chunk_type_no_classification_check exLeafBytes12 exLeafBytes12 0 ⟨exLeafBytes12⟩
      (ChunkDisk.mk [116, 101, 115, 116] (some [97, 98, 99, 100]) 0 4)).2 (by decide)⟩

/-- Claim C9: a leaf built from odd-length content of `u32`-represent-
able size (the 32-bit length field's domain, which the Rust
`data.len() as u32` cast truncates to) stores exactly one zero pad
byte appended at construction, keeps `payload_len` equal to the
unpadded content length, and serializes to a stream whose declared
length field is the unpadded length while the stream carries the one
trailing zero byte. Holds for any fuel (the leaf has depth 0). -/
theorem c9_odd_leaf_padding (id content : List Nat) (fuel : Nat)
    (h : content.length % 2 = 1) (hsz : content.length < 4294967296) :
    (ChunkBuilder.new_notype id (.rawData content)).payload_len = content.length ∧
    (ChunkBuilder.new_notype id (.rawData content)).data = .rawData (content ++ [0]) ∧
    chunkToBytesF (fuel + 1) (ChunkBuilder.new_notype id (.rawData content)) =
      id ++ toLE4 content.length ++ (content ++ [0]) := by
  have hmod : content.length % 4294967296 = content.length := Nat.mod_eq_of_lt hsz
  refine ⟨?_, ?_, ?_⟩
  · simp [ChunkBuilder.new_notype, calculate_payload, ChunkBuilder.payload_len, hmod]
  · simp [ChunkBuilder.new_notype, fit_data, h, ChunkBuilder.data]
  · simp [chunkToBytesF, ChunkBuilder.new_notype, fit_data, h, calculate_payload,
      ChunkBuilder.chunk_id, ChunkBuilder.payload_len, ChunkBuilder.chunk_type,
      ChunkBuilder.data, hmod]

/-- Witness for `c9_odd_leaf_padding` on the leaf `test:[0xFF]`. -/
theorem c9_odd_leaf_padding_w :
    ([255] : List Nat).length % 2 = 1 ∧
    ([255] : List Nat).length < 4294967296 ∧
    ((ChunkBuilder.new_notype [116, 101, 115, 116] (.rawData [255])).payload_len =
       ([255] : List Nat).length ∧
     (ChunkBuilder.new_notype [116, 101, 115, 116] (.rawData [255])).data =
       .rawData ([255] ++ [0]) ∧
     chunkToBytesF (0 + 1) (ChunkBuilder.new_notype [116, 101, 115, 116] (.rawData [255])) =
       [116, 101, 115, 116] ++ toLE4 ([255] : List Nat).length ++ ([255] ++ [0])) :=
  ⟨by decide, by decide,
   c9_odd_leaf_padding [116, 101, 115, 116] [255] 0 (by decide) (by decide)⟩

/-- Claim C10: `from_raw_u8` admits a slice exactly when it holds at
least 8 bytes and its length equals the declared `payload_len + 8`;
fewer than 8 bytes give `ChunkTooSmall`, any other length discrepancy
(including surplus trailing bytes) gives `PayloadLenMismatch`; and a
successful construction stores the slice unchanged, so every accessor
may rely on `data.length = payload_len + 8`. -/
theorem c10_from_raw_u8_exact_length (data : List Nat) :
    (data.length < 8 → ChunkRam.from_raw_u8 data = .error (.chunkTooSmall data)) ∧
    (8 ≤ data.length → data.length = ChunkRam.payload_len ⟨data⟩ + 8 →
      ChunkRam.from_raw_u8 data = .ok ⟨data⟩) ∧
    (8 ≤ data.length → data.length ≠ ChunkRam.payload_len ⟨data⟩ + 8 →
      ChunkRam.from_raw_u8 data = .error (.payloadLenMismatch data)) ∧
    (∀ c, ChunkRam.from_raw_u8 data = .ok c →
      c.data = data ∧ data.length = c.payload_len + 8) := by
  refine ⟨fun h => ?_, fun h h2 => ?_, fun h h2 => ?_, fun c h => ?_⟩
  · simp [ChunkRam.from_raw_u8, Nat.not_le_of_lt h]
  · simp [ChunkRam.from_raw_u8, h, h2]
  · simp [ChunkRam.from_raw_u8, h, h2]
  · by_cases h1 : 8 ≤ data.length
    · by_cases h2 : data.length = ChunkRam.payload_len ⟨data⟩ + 8
      · have h3 : ChunkRam.from_raw_u8 data = .ok ⟨data⟩ := by
          simp [ChunkRam.from_raw_u8, h1, h2]
        rw [h3] at h
        simp only [Except.ok.injEq] at h
        subst h
        exact ⟨rfl, h2⟩
      · have h3 : ChunkRam.from_raw_u8 data = .error (.payloadLenMismatch data) := by
          simp [ChunkRam.from_raw_u8, h1, h2]
        rw [h3] at h
        cases h
    · have h3 : ChunkRam.from_raw_u8 data = .error (.chunkTooSmall data) := by
        simp [ChunkRam.from_raw_u8, h1]
      rw [h3] at h
      cases h

/-- Witness for `c10_from_raw_u8_exact_length`: a 3-byte slice is too
small; an exact 12-byte `RIFF` slice is accepted; a 12-byte `test`
slice declaring payload 1 (three surplus bytes) is rejected with
`PayloadLenMismatch`. -/
theorem c10_from_raw_u8_exact_length_w :
    ChunkRam.from_raw_u8 [1, 2, 3] = .error (.chunkTooSmall [1, 2, 3]) ∧
    ChunkRam.from_raw_u8 (RIFF_ID ++ toLE4 4 ++ [9, 9, 9, 9]) =
      .ok ⟨RIFF_ID ++ toLE4 4 ++ [9, 9, 9, 9]⟩ ∧
    ChunkRam.from_raw_u8 ([116, 101, 115, 116] ++ toLE4 1 ++ [255, 0, 7]) =
      .error (.payloadLenMismatch ([116, 101, 115, 116] ++ toLE4 1 ++ [255, 0, 7])) :=
  ⟨(c10_from_raw_u8_exact_length [1, 2, 3]).1 (by decide),
   (c10_from_raw_u8_exact_length (RIFF_ID ++ toLE4 4 ++ [9, 9, 9, 9])).2.1 (by decide)
     (by decide),
   (c10_from_raw_u8_exact_length ([116, 101, 115, 116] ++ toLE4 1 ++ [255, 0, 7])).2.2.1
     (by decide) (by decide)⟩

/-- Claim C5 (counterexample): a well-formed file truncated to 7 bytes
is *accepted* by the lazy loader (it checks only the first four bytes),
not rejected with a too-small error. -/
theorem c5_lazy_accepts_seven_byte_file :
    RiffDisk.from_file [82, 73, 70, 70, 14, 0, 0] = .ok () := by decide

/-- Claim C6 (counterexample): `ChunkDisk` caches the id at
construction. Constructing a chunk over a store starting `RIFF` and
then switching the backing bytes to a store starting `LIST`, the `id`
accessor — a pure projection of the cached struct, taking no store
argument — still returns `RIFF`, not the current first four bytes. -/
theorem c6_lazy_id_is_cached_not_reread :
    ChunkDisk.from_path (RIFF_ID ++ toLE4 4 ++ [1, 2, 3, 4]) 0 =
      .ok ⟨RIFF_ID, some [1, 2, 3, 4], 0, 4⟩ ∧
    (ChunkDisk.mk RIFF_ID (some [1, 2, 3, 4]) 0 4).id = RIFF_ID ∧
    RIFF_ID ≠ (LIST_ID ++ toLE4 4 ++ [1, 2, 3, 4]).take 4 := by
  refine ⟨by decide, by decide, by decide⟩

/-- Claim C8 (counterexample): a 12-byte *leaf* chunk (`test`, payload
4, content `abcd`) is accepted by `from_raw_u8`, is not classified as a
typed container, and yet `chunk_type` succeeds, returning the content
bytes `abcd` — `chunk_type` never checks classification. -/
theorem c8_chunk_type_succeeds_on_leaf :
    ChunkRam.from_raw_u8 exLeafBytes12 = .ok ⟨exLeafBytes12⟩ ∧
    isTypedId (ChunkRam.id ⟨exLeafBytes12⟩) = false ∧
    ChunkRam.chunk_type ⟨exLeafBytes12⟩ = .ok [97, 98, 99, 100] := by
  refine ⟨by decide, by decide, by decide⟩

/-- Helper: a generic default-element fact about `List.getD` on
`replicate`. -/
theorem getD_replicate_self {α : Type} (a : α) (n j : Nat) :
    (List.replicate n a).getD j a = a := by
  induction n generalizing j with
  | zero => simp [List.getD]
  | succ n ih =>
    cases j with
    | zero => simp [List.replicate_succ]
    | succ j => simp [List.replicate_succ, ih j]

/-- Helper: the eager iterator in the error state yields `None` and
does not change state. -/
theorem ramNext_of_error (it : ChunkRamIter) (h : it.error_occurred = true) :
    ramNext it = (.stop, it) := by
  simp [ramNext, h]

/-- Helper: whenever the eager iterator yields an `Err` item, the
successor state has the sticky flag set. -/
theorem ramNext_flag (it : ChunkRamIter) :
    isRamErr (ramNext it).1 = false ∨ (ramNext it).2.error_occurred = true := by
  simp only [ramNext]
  split
  · left; rfl
  · split
    · left; rfl
    · split
      · split
        · split
          · left; rfl
          · right; rfl
        · right; rfl
      · right; rfl

/-- Helper: from the error state every future eager item is `None`. -/
theorem ramSteps_of_error (n : Nat) (it : ChunkRamIter) (h : it.error_occurred = true) :
    ramSteps n it = List.replicate n .stop := by
  induction n generalizing it with
  | zero => rfl
  | succ n ih =>
    simp [ramSteps, ramNext_of_error it h, ih it h, List.replicate_succ]

/-- Helper: sticky-error property of the eager iterator trace. -/
theorem ramSteps_sticky (n : Nat) (it : ChunkRamIter) (i j : Nat) (hij : i < j)
    (herr : isRamErr ((ramSteps n it).getD i .stop) = true) :
    (ramSteps n it).getD j .stop = .stop := by
  induction n generalizing it i j with
  | zero => simp [ramSteps, List.getD, isRamErr] at herr
  | succ n ih =>
    obtain ⟨j2, rfl⟩ : ∃ j2, j = j2 + 1 := ⟨j - 1, by omega⟩
    cases i with
    | zero =>
      simp only [ramSteps, List.getD_cons_zero] at herr
      have hflag : (ramNext it).2.error_occurred = true := by
        rcases ramNext_flag it with h | h
        · rw [h] at herr; cases herr
        · exact h
      simp only [ramSteps, List.getD_cons_succ]
      rw [ramSteps_of_error n _ hflag, getD_replicate_self]
    | succ i2 =>
      simp only [ramSteps, List.getD_cons_succ] at herr ⊢
      exact ih (ramNext it).2 i2 j2 (by omega) herr

/-- Helper: the lazy iterator in the error state yields `None` and
does not change state. -/
theorem diskNext_of_error (file : List Nat) (it : ChunkDiskIter)
    (h : it.error_occurred = true) : diskNext file it = (.stop, it) := by
  simp [diskNext, h]

/-- Helper: whenever the lazy iterator yields an `Err` item, the
successor state has the sticky flag set. -/
theorem diskNext_flag (file : List Nat) (it : ChunkDiskIter) :
    isDiskErr (diskNext file it).1 = false ∨ (diskNext file it).2.error_occurred = true := by
  simp only [diskNext]
  split
  · left; rfl
  · split
    · left; rfl
    · right; rfl

/-- Helper: from the error state every future lazy item is `None`. -/
theorem diskSteps_of_error (file : List Nat) (n : Nat) (it : ChunkDiskIter)
    (h : it.error_occurred = true) :
    diskSteps file n it = List.replicate n .stop := by
  induction n generalizing it with
  | zero => rfl
  | succ n ih =>
    simp [diskSteps, diskNext_of_error file it h, ih it h, List.replicate_succ]

/-- Helper: sticky-error property of the lazy iterator trace. -/
theorem diskSteps_sticky (file : List Nat) (n : Nat) (it : ChunkDiskIter) (i j : Nat)
    (hij : i < j) (herr : isDiskErr ((diskSteps file n it).getD i .stop) = true) :
    (diskSteps file n it).getD j .stop = .stop := by
  induction n generalizing it i j with
  | zero => simp [diskSteps, List.getD, isDiskErr] at herr
  | succ n ih =>
    obtain ⟨j2, rfl⟩ : ∃ j2, j = j2 + 1 := ⟨j - 1, by omega⟩
    cases i with
    | zero =>
      simp only [diskSteps, List.getD_cons_zero] at herr
      have hflag : (diskNext file it).2.error_occurred = true := by
        rcases diskNext_flag file it with h | h
        · rw [h] at herr; cases herr
        · exact h
      simp only [diskSteps, List.getD_cons_succ]
      rw [diskSteps_of_error file n _ hflag, getD_replicate_self]
    | succ i2 =>
      simp only [diskSteps, List.getD_cons_succ] at herr ⊢
      exact ih (diskNext file it).2 i2 j2 (by omega) herr

/-- Claim C7: for both readers' child iterators and any input, the
trace of yielded items is sticky: after an `Err` item at index `i`,
every later index yields `None` (so at most one `Err` is ever yielded,
even when a later position could have parsed); and a normal end of
children — cursor at the region length (eager) or at/over `cursor_end`
(lazy) with no error recorded — yields `None` without any `Err`. -/
theorem c7_iterators_sticky_error :
    (∀ (n : Nat) (it : ChunkRamIter) (i j : Nat), i < j →
      isRamErr ((ramSteps n it).getD i .stop) = true →
      (ramSteps n it).getD j .stop = .stop) ∧
    (∀ (file : List Nat) (n : Nat) (it : ChunkDiskIter) (i j : Nat), i < j →
      isDiskErr ((diskSteps file n it).getD i .stop) = true →
      (diskSteps file n it).getD j .stop = .stop) ∧
    (∀ it : ChunkRamIter, it.error_occurred = false → it.cursor = it.data.length →
      ramNext it = (.stop, it)) ∧
    (∀ (file : List Nat) (it : ChunkDiskIter), it.error_occurred = false →
      it.cursor_end ≤ it.cursor → diskNext file it = (.stop, it)) := by
  refine ⟨ramSteps_sticky, diskSteps_sticky, fun it h1 h2 => ?_, fun file it h1 h2 => ?_⟩
  · simp [ramNext, h1, h2]
  · simp [diskNext, h1, h2]

/-- Witness for `c7_iterators_sticky_error`: a 3-byte children region
makes the eager iterator yield one `Err` then `None`; an empty backing
file does the same for the lazy iterator; an empty region (eager) and
a cursor at `cursor_end` (lazy) end normally with `None`. -/
theorem c7_iterators_sticky_error_w :
    ((ramSteps 3 ⟨0, [1, 2, 3], false⟩).getD 1 .stop = .stop ∧
     isRamErr ((ramSteps 3 ⟨0, [1, 2, 3], false⟩).getD 0 .stop) = true) ∧
    ((diskSteps [] 3 ⟨0, 5, false⟩).getD 2 .stop = .stop ∧
     isDiskErr ((diskSteps [] 3 ⟨0, 5, false⟩).getD 0 .stop) = true) ∧
    ramNext ⟨0, [], false⟩ = (.stop, ⟨0, [], false⟩) ∧
    diskNext [] ⟨7, 7, false⟩ = (.stop, ⟨7, 7, false⟩) :=
  ⟨⟨c7_iterators_sticky_error.1 3 ⟨0, [1, 2, 3], false⟩ 0 1 (by decide) (by decide),
    by decide⟩,
   ⟨c7_iterators_sticky_error.2.1 [] 3 ⟨0, 5, false⟩ 0 2 (by decide) (by decide),
    by decide⟩,
   c7_iterators_sticky_error.2.2.1 ⟨0, [], false⟩ rfl rfl,
   c7_iterators_sticky_error.2.2.2 [] ⟨7, 7, false⟩ rfl (by decide)⟩

/-- Helper: LE decoding inverts LE encoding below `2^32`. -/
theorem le4_toLE4 (n : Nat) (r : List Nat) (h : n < 4294967296) :
    le4 (toLE4 n ++ r) = n := by
  simp only [toLE4, List.cons_append, List.nil_append, le4]
  omega

/-- Helper: LE decoding of the bare four encoded bytes. -/
theorem le4_toLE4_self (n : Nat) (h : n < 4294967296) : le4 (toLE4 n) = n := by
  have := le4_toLE4 n [] h
  simpa using this

/-- Helper: the encoded chunk is its header slice plus the pad. -/
theorem encChunk_split (p : List Nat × List Nat) :
    encChunk p = encHdr p ++ (if p.2.length % 2 = 1 then [0] else []) := by
  simp [encChunk, encHdr]

/-- Helper: length of the header slice of an encoded chunk. -/
theorem encHdr_len (p : List Nat × List Nat) (h1 : p.1.length = 4) :
    (encHdr p).length = 8 + p.2.length := by
  simp [encHdr, toLE4, h1]
  omega

/-- Helper: length of an encoded chunk (header, content, pad). -/
theorem encChunk_len (p : List Nat × List Nat) (h1 : p.1.length = 4) :
    (encChunk p).length = 8 + p.2.length + p.2.length % 2 := by
  rw [encChunk_split, List.length_append, encHdr_len p h1]
  by_cases h : p.2.length % 2 = 1
  · simp [h]
  · simp [h]
    omega

/-- Helper: the header slice re-associated for list surgery. -/
theorem encHdr_assoc (p : List Nat × List Nat) :
    encHdr p = p.1 ++ (toLE4 p.2.length ++ p.2) := by
  simp [encHdr]

/-- Helper: one eager iterator step over a well-formed encoded chunk
placed after `pre` in the children region: the step yields `Ok` of the
header slice and advances the cursor exactly past the encoded chunk. -/
theorem ramNext_enc (pre : List Nat) (p : List Nat × List Nat) (tail : List Nat)
    (h1 : p.1.length = 4) (h2 : p.2.length < 4294967296) :
    ramNext ⟨pre.length, pre ++ (encChunk p ++ tail), false⟩ =
      (.chunk (.ok ⟨encHdr p⟩),
       ⟨(pre ++ encChunk p).length, pre ++ (encChunk p ++ tail), false⟩) := by
  have hcl : (encChunk p).length = 8 + p.2.length + p.2.length % 2 := encChunk_len p h1
  have hhl : (encHdr p).length = 8 + p.2.length := encHdr_len p h1
  have hdl : (pre ++ (encChunk p ++ tail)).length =
      pre.length + ((encChunk p).length + tail.length) := by
    simp [List.length_append]
  have hdrop : (pre ++ (encChunk p ++ tail)).drop pre.length = encChunk p ++ tail :=
    List.drop_left pre (encChunk p ++ tail)
  have hrest : encChunk p ++ tail =
      encHdr p ++ ((if p.2.length % 2 = 1 then [0] else []) ++ tail) := by
    rw [encChunk_split, List.append_assoc]
  have hdrop4 : (encChunk p ++ tail).drop 4 =
      toLE4 p.2.length ++ (p.2 ++ ((if p.2.length % 2 = 1 then [0] else []) ++ tail)) := by
    rw [hrest, encHdr_assoc, List.append_assoc, List.append_assoc]
    exact List.drop_left' h1
  have hpl : le4 ((encChunk p ++ tail).drop 4) = p.2.length := by
    rw [hdrop4, le4_toLE4 _ _ h2]
  have htake : (encChunk p ++ tail).take (8 + p.2.length) = encHdr p := by
    rw [hrest]
    exact List.take_left' hhl
  have hfr : ChunkRam.from_raw_u8 (encHdr p) = .ok ⟨encHdr p⟩ := by
    have hp : ChunkRam.payload_len ⟨encHdr p⟩ = p.2.length := by
      show le4 ((encHdr p).drop 4) = p.2.length
      rw [encHdr_assoc]
      rw [List.drop_left' h1, le4_toLE4 _ _ h2]
    simp [ChunkRam.from_raw_u8, hhl, hp]
    all_goals omega
  have hne : ¬ pre.length = (pre ++ (encChunk p ++ tail)).length := by
    rw [hdl]; omega
  have hnlt : ¬ (pre ++ (encChunk p ++ tail)).length < pre.length := by
    rw [hdl]; omega
  have hpay : ChunkRam.payload_len ⟨encHdr p⟩ = p.2.length := by
    show le4 ((encHdr p).drop 4) = p.2.length
    rw [encHdr_assoc, List.drop_left' h1, le4_toLE4 _ _ h2]
  simp only [ramNext, Bool.false_or, hne, if_false, hnlt, hdrop, hpl]
  have hle8 : 8 ≤ (encChunk p ++ tail).length := by
    rw [List.length_append, hcl]; omega
  have hbound : pre.length + 8 + p.2.length ≤ (pre ++ (encChunk p ++ tail)).length := by
    rw [hdl, hcl]; omega
  have h8p : (8 : Nat) + p.2.length = 8 + p.2.length := rfl
  simp only [hle8, if_true, hbound, htake, hfr, hpay]
  rw [if_neg (by simp)]
  have hcur : pre.length + 8 + p.2.length + p.2.length % 2 = (pre ++ encChunk p).length := by
    rw [List.length_append, hcl]; omega
  rw [hcur]

/-- Helper: the eager child iterator over a region `pre ++ encSeq items`
starting at cursor `pre.length` yields exactly the `Ok` header slices
of `items` followed by `None`, and after `items.length` steps the
cursor sits exactly on the region's length. -/
theorem ramSteps_encSeq (items : List (List Nat × List Nat)) (pre : List Nat)
    (hwf : wfItems items) :
    ramSteps (items.length + 1) ⟨pre.length, pre ++ encSeq items, false⟩ =
      items.map (fun p => RamOut.chunk (.ok ⟨encHdr p⟩)) ++ [.stop] ∧
    ramStepN items.length ⟨pre.length, pre ++ encSeq items, false⟩ =
      ⟨(pre ++ encSeq items).length, pre ++ encSeq items, false⟩ := by
  induction items generalizing pre with
  | nil =>
    constructor
    · simp [ramSteps, ramNext, encSeq]
    · simp [ramStepN, encSeq]
  | cons p rest ih =>
    have hp := hwf p (by simp)
    have hseq : encSeq (p :: rest) = encChunk p ++ encSeq rest := rfl
    have hnext := ramNext_enc pre p (encSeq rest) hp.1 hp.2
    have hassoc : pre ++ (encChunk p ++ encSeq rest) = (pre ++ encChunk p) ++ encSeq rest :=
      (List.append_assoc pre (encChunk p) (encSeq rest)).symm
    have hwf2 : wfItems rest := fun q hq => hwf q (by simp [hq])
    have ih2 := ih (pre ++ encChunk p) hwf2
    rw [hassoc] at hnext
    constructor
    · show ramSteps (rest.length + 1 + 1) _ = _
      rw [ramSteps, hseq, hassoc, hnext]
      simp only [List.map_cons, List.cons_append]
      exact congrArg _ ih2.1
    · show ramStepN (rest.length + 1) _ = _
      rw [ramStepN, hseq, hassoc, hnext]
      exact ih2.2

/-- Helper: the encoded chunk re-associated for list surgery. -/
theorem encChunk_assoc (p : List Nat × List Nat) (tail : List Nat) :
    encChunk p ++ tail =
      p.1 ++ (toLE4 p.2.length ++
        (p.2 ++ ((if p.2.length % 2 = 1 then [0] else []) ++ tail))) := by
  simp [encChunk, List.append_assoc]

/-- Helper: one lazy iterator step over a well-formed encoded chunk at
absolute position `pos` of the backing file: the step yields `Ok` of a
`ChunkDisk` caching the id, the bytes at `pos + 8` (when readable), the
position and the content length, and advances the cursor exactly past
the encoded chunk. -/
theorem diskNext_enc (file : List Nat) (pos endv : Nat) (p : List Nat × List Nat)
    (tail : List Nat) (h1 : p.1.length = 4) (h2 : p.2.length < 4294967296)
    (hdrop : file.drop pos = encChunk p ++ tail) (hend : pos < endv) :
    diskNext file ⟨pos, endv, false⟩ =
      (.chunk (.ok ⟨p.1,
        (match read_4_bytes file (pos + 8) with
         | .ok result => some result
         | .error _ => none), pos, p.2.length⟩),
       ⟨pos + 8 + p.2.length + p.2.length % 2, endv, false⟩) := by
  have hcl : (encChunk p).length = 8 + p.2.length + p.2.length % 2 := encChunk_len p h1
  have hdlen : (file.drop pos).length = file.length - pos := List.length_drop pos file
  have hlen : 8 + p.2.length + p.2.length % 2 + tail.length = file.length - pos := by
    have := congrArg List.length hdrop
    rw [hdlen, List.length_append, hcl] at this
    omega
  have h8 : pos + 8 ≤ file.length := by omega
  have htake4 : (file.drop pos).take 4 = p.1 := by
    rw [hdrop, encChunk_assoc]
    exact List.take_left' h1
  have hdrop4 : file.drop (pos + 4) = toLE4 p.2.length ++
      (p.2 ++ ((if p.2.length % 2 = 1 then [0] else []) ++ tail)) := by
    rw [← List.drop_drop, hdrop, encChunk_assoc]
    exact List.drop_left' h1
  have htakeLE : (file.drop (pos + 4)).take 4 = toLE4 p.2.length := by
    rw [hdrop4]
    exact List.take_left' (by simp [toLE4])
  have hr0 : read_4_bytes file pos = .ok p.1 := by
    simp only [read_4_bytes, if_pos (by omega : pos + 4 ≤ file.length), htake4]
  have hr4 : read_4_bytes file (pos + 4) = .ok (toLE4 p.2.length) := by
    simp only [read_4_bytes, if_pos (by omega : pos + 4 + 4 ≤ file.length), htakeLE]
  have hfp : ChunkDisk.from_path file pos = .ok ⟨p.1,
      (match read_4_bytes file (pos + 8) with
       | .ok result => some result
       | .error _ => none), pos, p.2.length⟩ := by
    simp only [ChunkDisk.from_path, hr0, hr4, le4_toLE4_self _ h2]
  simp only [diskNext, Bool.false_or, if_neg (by omega : ¬ endv ≤ pos), hfp]
  rw [if_neg (by simp only [decide_eq_true_eq]; omega)]

/-- Helper: the lazy child iterator over the encoded sequence of
`items` at absolute position `pos` (with arbitrary following bytes)
yields exactly the expected trace followed by `None`, and after
`items.length` steps the cursor sits exactly on `cursor_end`. -/
theorem diskSteps_encSeq (file suffix : List Nat) (items : List (List Nat × List Nat))
    (pos : Nat) (hwf : wfItems items)
    (hdrop : file.drop pos = encSeq items ++ suffix) :
    diskSteps file (items.length + 1) ⟨pos, pos + (encSeq items).length, false⟩ =
      diskTrace file pos items ++ [.stop] ∧
    diskStepN file items.length ⟨pos, pos + (encSeq items).length, false⟩ =
      ⟨pos + (encSeq items).length, pos + (encSeq items).length, false⟩ := by
  induction items generalizing pos with
  | nil =>
    constructor
    · simp [diskSteps, diskNext, encSeq, diskTrace]
    · simp [diskStepN, encSeq]
  | cons p rest ih =>
    have hp := hwf p (by simp)
    have hwf2 : wfItems rest := fun q hq => hwf q (by simp [hq])
    have hseq : encSeq (p :: rest) = encChunk p ++ encSeq rest := rfl
    have hdrop1 : file.drop pos = encChunk p ++ (encSeq rest ++ suffix) := by
      rw [hdrop, hseq, List.append_assoc]
    have hLp : (encChunk p).length = 8 + p.2.length + p.2.length % 2 := encChunk_len p hp.1
    have hend : pos < pos + (encSeq (p :: rest)).length := by
      rw [hseq, List.length_append, hLp]; omega
    have hnext := diskNext_enc file pos (pos + (encSeq (p :: rest)).length) p
      (encSeq rest ++ suffix) hp.1 hp.2 hdrop1 hend
    have hdrop2 : file.drop (pos + (encChunk p).length) = encSeq rest ++ suffix := by
      rw [← List.drop_drop, hdrop1]
      exact List.drop_left (encChunk p) (encSeq rest ++ suffix)
    have ih2 := ih (pos + (encChunk p).length) hwf2 hdrop2
    have hAdv : pos + 8 + p.2.length + p.2.length % 2 = pos + (encChunk p).length := by
      rw [hLp]; omega
    have hEnd : pos + (encSeq (p :: rest)).length =
        pos + (encChunk p).length + (encSeq rest).length := by
      rw [hseq, List.length_append]; omega
    constructor
    · show diskSteps file (rest.length + 1 + 1) _ = _
      rw [diskSteps, hnext]
      show _ :: diskSteps file (rest.length + 1) _ = _
      rw [diskTrace]
      simp only [List.cons_append]
      refine congrArg _ ?_
      rw [hAdv, hEnd]
      exact ih2.1
    · show diskStepN file (rest.length + 1) _ = _
      rw [diskStepN, hnext]
      show diskStepN file rest.length _ = _
      rw [hAdv, hEnd]
      exact ih2.2

/-- Claim C3: over any well-formed encoded child sequence, repeated
application of the advance rule lands exactly on the iteration bound.
Eagerly: a typed (`LIST`) container chunk and an untyped (`seqt`)
container chunk both present exactly the encoded sequence as their
children region; from cursor 0 the iterator yields each child once
(`Ok` of its header slice, in order) and then `None`, the cursor after
`items.length` steps being exactly the region length — no gap, no
overshoot, no error. Lazily: loading the same container at offset
`pre.length` of a file caches `payload_len = 4 + |children|`, its
iterator spans `pos + 12` to exactly `pos + 12 + |children|`, yields
each child once and then `None`, the cursor landing exactly on
`cursor_end`. -/
theorem c3_advance_lands_exactly_on_bounds
    (ty : List Nat) (items : List (List Nat × List Nat)) (pre suf lfile : List Nat)
    (hty : ty.length = 4) (hwf : wfItems items)
    (hL : 4 + (encSeq items).length < 4294967296)
    (hfile : lfile =
      pre ++ (LIST_ID ++ toLE4 (4 + (encSeq items).length) ++ ty ++ encSeq items) ++ suf) :
    (ChunkRam.iter ⟨LIST_ID ++ toLE4 (4 + (encSeq items).length) ++ ty ++ encSeq items⟩ =
      ⟨0, encSeq items, false⟩) ∧
    (ChunkRam.iter ⟨SEQT_ID ++ toLE4 (encSeq items).length ++ encSeq items⟩ =
      ⟨0, encSeq items, false⟩) ∧
    ramSteps (items.length + 1) ⟨0, encSeq items, false⟩ =
      items.map (fun p => RamOut.chunk (.ok ⟨encHdr p⟩)) ++ [.stop] ∧
    ramStepN items.length ⟨0, encSeq items, false⟩ =
      ⟨(encSeq items).length, encSeq items, false⟩ ∧
    ChunkDisk.from_path lfile pre.length =
      .ok ⟨LIST_ID, some ty, pre.length, 4 + (encSeq items).length⟩ ∧
    ChunkDisk.iter ⟨LIST_ID, some ty, pre.length, 4 + (encSeq items).length⟩ =
      ⟨pre.length + 12, pre.length + 12 + (encSeq items).length, false⟩ ∧
    diskSteps lfile (items.length + 1)
        ⟨pre.length + 12, pre.length + 12 + (encSeq items).length, false⟩ =
      diskTrace lfile (pre.length + 12) items ++ [.stop] ∧
    diskStepN lfile items.length
        ⟨pre.length + 12, pre.length + 12 + (encSeq items).length, false⟩ =
      ⟨pre.length + 12 + (encSeq items).length, pre.length + 12 + (encSeq items).length,
       false⟩ := by
  have htypedL : isTypedId LIST_ID = true := by decide
  have hseqtF : isTypedId SEQT_ID = false := by decide
  have hdata1 : LIST_ID ++ toLE4 (4 + (encSeq items).length) ++ ty ++ encSeq items =
      LIST_ID ++ (toLE4 (4 + (encSeq items).length) ++ (ty ++ encSeq items)) := by
    simp [List.append_assoc]
  have hid1 : (LIST_ID ++ toLE4 (4 + (encSeq items).length) ++ ty ++ encSeq items).take 4 =
      LIST_ID := by
    rw [hdata1]; exact List.take_left' rfl
  have hdrop12 : (LIST_ID ++ toLE4 (4 + (encSeq items).length) ++ ty ++ encSeq items).drop 12 =
      encSeq items :=
    List.drop_left' (by simp [toLE4, hty, LIST_ID, List.length_append])
  have hdata2 : SEQT_ID ++ toLE4 (encSeq items).length ++ encSeq items =
      SEQT_ID ++ (toLE4 (encSeq items).length ++ encSeq items) := by
    simp [List.append_assoc]
  have hid2 : (SEQT_ID ++ toLE4 (encSeq items).length ++ encSeq items).take 4 = SEQT_ID := by
    rw [hdata2]; exact List.take_left' rfl
  have hdrop8 : (SEQT_ID ++ toLE4 (encSeq items).length ++ encSeq items).drop 8 =
      encSeq items :=
    List.drop_left' (by simp [toLE4, SEQT_ID, List.length_append])
  have hram := ramSteps_encSeq items [] hwf
  have hdropP : lfile.drop pre.length =
      (LIST_ID ++ toLE4 (4 + (encSeq items).length) ++ ty ++ encSeq items) ++ suf := by
    rw [hfile, List.append_assoc]
    exact List.drop_left _ _
  have hC2 : (LIST_ID ++ toLE4 (4 + (encSeq items).length) ++ ty ++ encSeq items) ++ suf =
      LIST_ID ++ (toLE4 (4 + (encSeq items).length) ++ (ty ++ (encSeq items ++ suf))) := by
    simp [List.append_assoc]
  have htk0 : (lfile.drop pre.length).take 4 = LIST_ID := by
    rw [hdropP, hC2]; exact List.take_left' rfl
  have hdropP4 : lfile.drop (pre.length + 4) =
      toLE4 (4 + (encSeq items).length) ++ (ty ++ (encSeq items ++ suf)) := by
    rw [← List.drop_drop, hdropP, hC2]
    exact List.drop_left' rfl
  have htk4 : (lfile.drop (pre.length + 4)).take 4 = toLE4 (4 + (encSeq items).length) := by
    rw [hdropP4]; exact List.take_left' (by simp [toLE4])
  have hdropP8 : lfile.drop (pre.length + 8) = ty ++ (encSeq items ++ suf) := by
    have h84 : pre.length + 8 = pre.length + 4 + 4 := by omega
    rw [h84, ← List.drop_drop, hdropP4]
    exact List.drop_left' (by simp [toLE4])
  have htk8 : (lfile.drop (pre.length + 8)).take 4 = ty := by
    rw [hdropP8]; exact List.take_left' hty
  have hflen : pre.length + 12 + (encSeq items).length + suf.length = lfile.length := by
    rw [hfile]
    simp [List.length_append, toLE4, hty, LIST_ID]
    omega
  have hr0 : read_4_bytes lfile pre.length = .ok LIST_ID := by
    simp only [read_4_bytes, if_pos (by omega : pre.length + 4 ≤ lfile.length), htk0]
  have hr4 : read_4_bytes lfile (pre.length + 4) = .ok (toLE4 (4 + (encSeq items).length)) := by
    simp only [read_4_bytes, if_pos (by omega : pre.length + 4 + 4 ≤ lfile.length), htk4]
  have hr8 : read_4_bytes lfile (pre.length + 8) = .ok ty := by
    simp only [read_4_bytes, if_pos (by omega : pre.length + 8 + 4 ≤ lfile.length), htk8]
  have hdropC : lfile.drop (pre.length + 12) = encSeq items ++ suf := by
    have h12 : pre.length + 12 = pre.length + 8 + 4 := by omega
    rw [h12, ← List.drop_drop, hdropP8]
    exact List.drop_left' hty
  have hdisk := diskSteps_encSeq lfile suf items (pre.length + 12) hwf hdropC
  refine ⟨?_, ?_, ?_, ?_, ?_, ?_, ?_, ?_⟩
  · simp only [ChunkRam.iter, ChunkRam.id]
    rw [hid1, htypedL, if_pos rfl, hdrop12]
  · simp only [ChunkRam.iter, ChunkRam.id]
    rw [hid2, hseqtF, if_neg (by simp), hdrop8]
  · have h := hram.1
    simpa using h
  · have h := hram.2
    simpa using h
  · simp only [ChunkDisk.from_path, hr0, hr4, hr8, le4_toLE4_self _ hL]
  · simp only [ChunkDisk.iter, htypedL, if_true]
    have hsub : pre.length + 12 + (4 + (encSeq items).length) - 4 =
        pre.length + 12 + (encSeq items).length := by omega
    rw [hsub]
  · exact hdisk.1
  · exact hdisk.2

/-- Witness for `c3_advance_lands_exactly_on_bounds` on the concrete
container `LIST(tst1)[ test:[0xFF], ab12:[1,2] ]` placed at offset 2 of
a file with surrounding junk bytes. -/
theorem c3_advance_lands_exactly_on_bounds_w :
    (ChunkRam.iter ⟨LIST_ID ++ toLE4 (4 + (encSeq c3Items).length) ++ c3Ty ++ encSeq c3Items⟩ =
      ⟨0, encSeq c3Items, false⟩) ∧
    (ChunkRam.iter ⟨SEQT_ID ++ toLE4 (encSeq c3Items).length ++ encSeq c3Items⟩ =
      ⟨0, encSeq c3Items, false⟩) ∧
    ramSteps (c3Items.length + 1) ⟨0, encSeq c3Items, false⟩ =
      c3Items.map (fun p => RamOut.chunk (.ok ⟨encHdr p⟩)) ++ [.stop] ∧
    ramStepN c3Items.length ⟨0, encSeq c3Items, false⟩ =
      ⟨(encSeq c3Items).length, encSeq c3Items, false⟩ ∧
    ChunkDisk.from_path c3File c3Pre.length =
      .ok ⟨LIST_ID, some c3Ty, c3Pre.length, 4 + (encSeq c3Items).length⟩ ∧
    ChunkDisk.iter ⟨LIST_ID, some c3Ty, c3Pre.length, 4 + (encSeq c3Items).length⟩ =
      ⟨c3Pre.length + 12, c3Pre.length + 12 + (encSeq c3Items).length, false⟩ ∧
    diskSteps c3File (c3Items.length + 1)
        ⟨c3Pre.length + 12, c3Pre.length + 12 + (encSeq c3Items).length, false⟩ =
      diskTrace c3File (c3Pre.length + 12) c3Items ++ [.stop] ∧
    diskStepN c3File c3Items.length
        ⟨c3Pre.length + 12, c3Pre.length + 12 + (encSeq c3Items).length, false⟩ =
      ⟨c3Pre.length + 12 + (encSeq c3Items).length,
       c3Pre.length + 12 + (encSeq c3Items).length, false⟩ :=
  c3_advance_lands_exactly_on_bounds c3Ty c3Items c3Pre c3Suf c3File rfl
    (by unfold wfItems; decide) (by decide) rfl
